import Mathlib

/-!
Shallow embedding of `src/blockchain.rs` (repository `asventon1/shitcoin`).

The file under `src/` defines RSA-based message signing and verification
(`sign_message`, `verify_message`), a signed `Transaction` record
(`Transaction::new`, `Transaction::verify`), and a proof-of-work block miner
(`Block::check_block`, `Block::mine_block`).

The repository code calls external crates for its cryptographic primitives:
`sha2` for SHA-256, `rsa` for PKCS#1 v1.5 signing/verification and key
generation, and Rust's `derive(Debug)` formatting for the canonical
serialization strings.  Those primitives are not part of this repository's
source, so the development is parametric over them (the `Primitives`
structure below); RSA itself is modelled concretely at the arithmetic level
(`EM ^ d mod n` / `sig ^ e mod n`), which is the defining behaviour of the
crate's PKCS#1 v1.5 sign and verify operations, and the guarantees of the
crate's key generation are captured by the `ValidPrivateKey` predicate.
-/

namespace Shitcoin

/-- Output type of SHA-256 in the code, `pub type SHA256Hash = [u8; 32]`:
32 bytes, each below 256. -/
abbrev SHA256Hash := Fin 32 → Fin 256

/-- Bit pattern of a Rust `f64` value.  In `blockchain.rs` the `amount` field
is only ever stored and Debug-formatted, never used arithmetically, so an
opaque 64-bit pattern models it; its formatting is a primitive parameter. -/
abbrev F64 := Nat

/-- RSA public key as held by the `rsa` crate: modulus `n` and public
exponent `e`. -/
structure RsaPublicKey where
  n : Nat
  e : Nat
deriving DecidableEq

/-- RSA private key as held by the `rsa` crate: modulus `n`, public exponent
`e` and private exponent `d`. -/
structure RsaPrivateKey where
  n : Nat
  e : Nat
  d : Nat
deriving DecidableEq

/-- `RsaPublicKey::from(&private_key)`: the public part of a private key. -/
def pubOf (sk : RsaPrivateKey) : RsaPublicKey := ⟨sk.n, sk.e⟩

/-- Guarantee provided by `RsaPrivateKey::new` (the `rsa` crate), which
`generate_key_pair` calls: the modulus is a product of two distinct primes
and the exponents are mutually inverse modulo the Carmichael value
`lcm (p-1) (q-1)`. -/
def ValidPrivateKey (sk : RsaPrivateKey) : Prop :=
  ∃ p q : Nat, p.Prime ∧ q.Prime ∧ p ≠ q ∧ sk.n = p * q ∧
    sk.e * sk.d ≡ 1 [MOD Nat.lcm (p - 1) (q - 1)]

/-- A key pair as produced by `generate_key_pair`: a valid private key
together with its derived public key. -/
def ValidKeyPair (sk : RsaPrivateKey) (pk : RsaPublicKey) : Prop :=
  ValidPrivateKey sk ∧ pk = pubOf sk

/-- External primitives used by `blockchain.rs`, all from outside this
repository: the SHA-256 digest of a string (`sha2` crate), the
EMSA-PKCS1-v1_5 encoding of a digest for a given modulus (`rsa` crate's
`PaddingScheme::new_pkcs1v15_sign(Some(Hash::SHA2_256))`), and the
`derive(Debug)` formatting of `RsaPublicKey`, `f64` and `Vec<u8>` values
used to build the canonical serialization strings. -/
structure Primitives where
  sha256 : String → SHA256Hash
  emsa : SHA256Hash → Nat → Nat
  dbgPub : RsaPublicKey → String
  dbgF64 : F64 → String
  dbgSig : Nat → String

/-- `sign_message` from `blockchain.rs`: hash the message with SHA-256, then
sign the digest under PKCS#1 v1.5 padding, i.e. apply RSASP1 to the padded
digest: `EM ^ d mod n`. -/
def sign_message (P : Primitives) (message : String) (private_key : RsaPrivateKey) : Nat :=
  P.emsa (P.sha256 message) private_key.n ^ private_key.d % private_key.n

/-- `verify_message` from `blockchain.rs`: recompute the digest and run the
crate's PKCS#1 v1.5 verification; the signature must be in range of the
modulus and RSAVP1 (`sig ^ e mod n`) must give back the padded digest.  The
`match` in the source maps `Ok` to `true` and every `Err` to `false`. -/
def verify_message (P : Primitives) (message : String) (signature : Nat)
    (public_key : RsaPublicKey) : Bool :=
  decide (signature < public_key.n) &&
    (signature ^ public_key.e % public_key.n == P.emsa (P.sha256 message) public_key.n)

/-! RSA correctness: the round trip `(m ^ d mod n) ^ e mod n = m` for a valid
key pair and `m < n`. -/

lemma pow_carmichael_step_prime (p m k : Nat) (hp : p.Prime) :
    m ^ (k * (p - 1) + 1) ≡ m [MOD p] := by
  by_cases hdvd : p ∣ m
  · have h0 : m ≡ 0 [MOD p] := (Nat.modEq_zero_iff_dvd).2 hdvd
    calc m ^ (k * (p - 1) + 1) ≡ 0 ^ (k * (p - 1) + 1) [MOD p] :=
          h0.pow _
      _ = 0 := by simp
      _ ≡ m [MOD p] := h0.symm
  · have hco : Nat.Coprime m p := (Nat.Coprime.symm ((hp.coprime_iff_not_dvd).2 hdvd))
    have hferma : m ^ (p - 1) ≡ 1 [MOD p] := by
      have := Nat.ModEq.pow_totient hco
      rwa [Nat.totient_prime hp] at this
    calc m ^ (k * (p - 1) + 1) = (m ^ (p - 1)) ^ k * m := by
          rw [pow_add, pow_one, ← pow_mul, Nat.mul_comm (p - 1) k]
      _ ≡ 1 ^ k * m [MOD p] := (hferma.pow k).mul_right m
      _ = m := by simp

lemma rsa_roundtrip (p q e d m : Nat) (hp : p.Prime) (hq : q.Prime) (hpq : p ≠ q)
    (hed : e * d ≡ 1 [MOD Nat.lcm (p - 1) (q - 1)]) (hm : m < p * q) :
    (m ^ d % (p * q)) ^ e % (p * q) = m := by
  set L := Nat.lcm (p - 1) (q - 1) with hL
  have hppos : 0 < p - 1 ∨ 0 < q - 1 := Or.inl (by have := hp.two_le; omega)
  have hLpos : 0 < L := Nat.lcm_pos (by have := hp.two_le; omega) (by have := hq.two_le; omega)
  have hL2 : 2 ≤ L := by
    rcases eq_or_ne p 2 with hp2 | hp2
    · have hq3 : 3 ≤ q := by
        have h2 := hq.two_le
        rcases Nat.lt_or_ge q 3 with h | h
        · exfalso; apply hpq; omega
        · exact h
      have hdq : q - 1 ∣ L := Nat.dvd_lcm_right _ _
      have := Nat.le_of_dvd hLpos hdq
      omega
    · have hp3 : 3 ≤ p := by
        have h2 := hp.two_le
        have := hp.eq_one_or_self_of_dvd
        rcases Nat.lt_or_ge p 3 with h | h
        · exfalso; apply hp2; omega
        · exact h
      have hdp : p - 1 ∣ L := Nat.dvd_lcm_left _ _
      have := Nat.le_of_dvd hLpos hdp
      omega
  have hmod : (e * d) % L = 1 := by
    have h1 : (e * d) % L = 1 % L := hed
    have h2 : 1 % L = 1 := Nat.mod_eq_of_lt (by omega)
    rw [h2] at h1
    exact h1
  have hsplit : e * d = L * (e * d / L) + 1 := by
    have := Nat.div_add_mod (e * d) L
    omega
  set k := e * d / L with hk
  have hper : ∀ r : Nat, r.Prime → (r - 1) ∣ L → m ^ (d * e) ≡ m [MOD r] := by
    intro r hr hdvdL
    obtain ⟨s, hs⟩ := hdvdL
    have hexp : d * e = (s * k) * (r - 1) + 1 := by
      rw [Nat.mul_comm d e, hsplit, hs]
      ring
    rw [hexp]
    exact pow_carmichael_step_prime r m (s * k) hr
  have hmodp : m ^ (d * e) ≡ m [MOD p] := hper p hp (Nat.dvd_lcm_left _ _)
  have hmodq : m ^ (d * e) ≡ m [MOD q] := hper q hq (Nat.dvd_lcm_right _ _)
  have hco : Nat.Coprime p q := (Nat.coprime_primes hp hq).2 hpq
  have hmodn : m ^ (d * e) ≡ m [MOD p * q] :=
    (Nat.modEq_and_modEq_iff_modEq_mul hco).1 ⟨hmodp, hmodq⟩
  calc (m ^ d % (p * q)) ^ e % (p * q) = (m ^ d) ^ e % (p * q) :=
        (Nat.pow_mod _ _ _).symm
    _ = m ^ (d * e) % (p * q) := by rw [← pow_mul]
    _ = m % (p * q) := hmodn
    _ = m := Nat.mod_eq_of_lt hm

lemma valid_key_n_pos (sk : RsaPrivateKey) (hv : ValidPrivateKey sk) : 0 < sk.n := by
  obtain ⟨p, q, hp, hq, _, hn, _⟩ := hv
  have := hp.two_le
  have := hq.two_le
  rw [hn]
  positivity

lemma sign_then_verify (P : Primitives) (sk : RsaPrivateKey) (pk : RsaPublicKey)
    (m : String) (hvk : ValidKeyPair sk pk)
    (hEM : P.emsa (P.sha256 m) sk.n < sk.n) :
    verify_message P m (sign_message P m sk) pk = true := by
  obtain ⟨hv, hpk⟩ := hvk
  obtain ⟨p, q, hp, hq, hpq, hn, hed⟩ := hv
  have hnpos : 0 < sk.n := valid_key_n_pos sk ⟨p, q, hp, hq, hpq, hn, hed⟩
  subst hpk
  unfold verify_message sign_message pubOf
  simp only [Bool.and_eq_true, decide_eq_true_eq, beq_iff_eq]
  constructor
  · exact Nat.mod_lt _ hnpos
  · have := rsa_roundtrip p q sk.e sk.d (P.emsa (P.sha256 m) sk.n) hp hq hpq hed
      (by rwa [← hn])
    rw [← hn] at this
    exact this

/-- C1: for every key pair produced by `generate_key_pair` and every message
`m` whose padded digest is below the modulus (always true for the crate's
2048-bit keys), `verify_message m (sign_message m sk) pk` returns `true`. -/
theorem C1_sign_verify_roundtrip (P : Primitives) (sk : RsaPrivateKey)
    (pk : RsaPublicKey) (m : String) (hvk : ValidKeyPair sk pk)
    (hEM : P.emsa (P.sha256 m) sk.n < sk.n) :
    verify_message P m (sign_message P m sk) pk = true :=
  sign_then_verify P sk pk m hvk hEM

/-- Concrete primitive instantiation used by witnesses: constant digest,
constant padded encoding, trivial Debug formatting. -/
def Pw : Primitives where
  sha256 := fun _ => fun _ => 0
  emsa := fun _ _ => 5
  dbgPub := fun _ => ""
  dbgF64 := fun _ => ""
  dbgSig := fun _ => ""

/-- Small valid RSA private key for witnesses: n = 33 = 3 * 11,
lcm (2, 10) = 10, e = 3, d = 7, and 21 = 2 * 10 + 1. -/
def skW : RsaPrivateKey := ⟨33, 3, 7⟩

lemma skW_valid : ValidPrivateKey skW := by
  refine ⟨3, 11, by norm_num, by norm_num, by norm_num, by decide, ?_⟩
  decide

theorem C1_sign_verify_roundtrip_witness :
    verify_message Pw "hello" (sign_message Pw "hello" skW) (pubOf skW) = true :=
  C1_sign_verify_roundtrip Pw skW (pubOf skW) "hello" ⟨skW_valid, rfl⟩ (by decide)

/-- C6: `verify_message` is a total boolean function (the `Ok`/`Err` match in
the source maps every verification failure to `false`, it never propagates an
error), and it returns `true` exactly when the signature is in range of the
modulus and RSAVP1 recovers the padded digest of the message — the exact
cryptographic match. -/
theorem C6_verify_total_and_exact (P : Primitives) (m : String) (sig : Nat)
    (pk : RsaPublicKey) :
    verify_message P m sig pk = true ↔
      (sig < pk.n ∧ sig ^ pk.e % pk.n = P.emsa (P.sha256 m) pk.n) := by
  unfold verify_message
  simp [Bool.and_eq_true]

lemma verify_false_of_emsa_ne (P : Primitives) (sk : RsaPrivateKey)
    (pk : RsaPublicKey) (s0 s1 : String) (hvk : ValidKeyPair sk pk)
    (hEM : P.emsa (P.sha256 s0) sk.n < sk.n)
    (hne : P.emsa (P.sha256 s1) sk.n ≠ P.emsa (P.sha256 s0) sk.n) :
    verify_message P s1 (sign_message P s0 sk) pk = false := by
  obtain ⟨hv, hpk⟩ := hvk
  obtain ⟨p, q, hp, hq, hpq, hn, hed⟩ := hv
  subst hpk
  unfold verify_message sign_message pubOf
  set EM0 := P.emsa (P.sha256 s0) sk.n with hEM0
  have hrt : (EM0 ^ sk.d % sk.n) ^ sk.e % sk.n = EM0 := by
    rw [hn]
    exact rsa_roundtrip p q sk.e sk.d EM0 hp hq hpq hed (hn ▸ hEM)
  simp only [hrt]
  have hb : (EM0 == P.emsa (P.sha256 s1) sk.n) = false :=
    beq_eq_false_iff_ne.mpr (Ne.symm hne)
  rw [hb, Bool.and_false]

/-- C7: for a key pair from `generate_key_pair` and distinct messages `m1`,
`m2` whose padded digests differ (no SHA-256 collision at these two inputs,
the crate guarantee the code relies on), verifying `m2` against the signature
of `m1` returns `false`. -/
theorem C7_verify_other_message_false (P : Primitives) (sk : RsaPrivateKey)
    (pk : RsaPublicKey) (m1 m2 : String) (hvk : ValidKeyPair sk pk)
    (hm : m1 ≠ m2) (hEM : P.emsa (P.sha256 m1) sk.n < sk.n)
    (hne : P.emsa (P.sha256 m2) sk.n ≠ P.emsa (P.sha256 m1) sk.n) :
    verify_message P m2 (sign_message P m1 sk) pk = false :=
  verify_false_of_emsa_ne P sk pk m1 m2 hvk hEM hne

/-- Primitive instantiation whose digest separates the strings used by the
C7 witness. -/
def P2 : Primitives where
  sha256 := fun s => fun _ => if s = "a" then 0 else 1
  emsa := fun h _ => (h 0).val
  dbgPub := fun _ => ""
  dbgF64 := fun _ => ""
  dbgSig := fun _ => ""

theorem C7_verify_other_message_false_witness :
    verify_message P2 "b" (sign_message P2 "a" skW) (pubOf skW) = false :=
  C7_verify_other_message_false P2 skW (pubOf skW) "a" "b" ⟨skW_valid, rfl⟩
    (by decide) (by decide) (by decide)

/-- The `Transaction` struct of `blockchain.rs` (field spelling `reciver` as
in the source). -/
structure Transaction where
  sender : RsaPublicKey
  reciver : RsaPublicKey
  amount : F64
  uid : Nat
  signature : Nat

/-- The canonical message of a transaction, the source's
`format!("{:?} {:?} {:?} {:?}", sender, reciver, amount, uid)`. -/
def transaction_string (P : Primitives) (sender reciver : RsaPublicKey)
    (amount : F64) (uid : Nat) : String :=
  P.dbgPub sender ++ " " ++ P.dbgPub reciver ++ " " ++ P.dbgF64 amount
    ++ " " ++ toString uid

/-- `Transaction::new`: build the canonical message, sign it with the given
private key, store the fields and the signature.  No check relates
`sender_private_key` to `sender`. -/
def Transaction.new (P : Primitives) (sender : RsaPublicKey)
    (sender_private_key : RsaPrivateKey) (reciver : RsaPublicKey)
    (amount : F64) (uid : Nat) : Transaction :=
  let s := transaction_string P sender reciver amount uid
  ⟨sender, reciver, amount, uid, sign_message P s sender_private_key⟩

/-- `Transaction::verify`: rebuild the canonical message from the current
field values and verify the stored signature against `self.sender`. -/
def Transaction.verify (P : Primitives) (t : Transaction) : Bool :=
  verify_message P (transaction_string P t.sender t.reciver t.amount t.uid)
    t.signature t.sender

/-- C2: a transaction freshly built by `Transaction::new` with the private
key matching the sender public key (and, as for every 2048-bit crate key,
a padded digest below the modulus) verifies successfully. -/
theorem C2_new_transaction_verifies (P : Primitives) (sk : RsaPrivateKey)
    (pk : RsaPublicKey) (reciver : RsaPublicKey) (amount : F64) (uid : Nat)
    (hvk : ValidKeyPair sk pk)
    (hEM : P.emsa (P.sha256 (transaction_string P pk reciver amount uid)) sk.n < sk.n) :
    Transaction.verify P (Transaction.new P pk sk reciver amount uid) = true :=
  sign_then_verify P sk pk (transaction_string P pk reciver amount uid) hvk hEM

theorem C2_new_transaction_verifies_witness :
    Transaction.verify Pw (Transaction.new Pw (pubOf skW) skW ⟨5, 3⟩ 7 1) = true :=
  C2_new_transaction_verifies Pw skW (pubOf skW) ⟨5, 3⟩ 7 1 ⟨skW_valid, rfl⟩
    (by decide)

/-- C3: on a transaction built with the matching private key, overwriting
`amount`, `reciver`, or `uid` with a value whose canonical message has a
different padded digest (the crate guarantee: distinct field values give
distinct Debug strings and SHA-256 does not collide on them) makes
`verify` return `false`. -/
theorem C3_mutation_breaks_verify (P : Primitives) (sk : RsaPrivateKey)
    (pk reciver : RsaPublicKey) (amount : F64) (uid : Nat)
    (amount2 : F64) (reciver2 : RsaPublicKey) (uid2 : Nat)
    (hvk : ValidKeyPair sk pk)
    (hEM : P.emsa (P.sha256 (transaction_string P pk reciver amount uid)) sk.n < sk.n)
    (hneA : P.emsa (P.sha256 (transaction_string P pk reciver amount2 uid)) sk.n
      ≠ P.emsa (P.sha256 (transaction_string P pk reciver amount uid)) sk.n)
    (hneR : P.emsa (P.sha256 (transaction_string P pk reciver2 amount uid)) sk.n
      ≠ P.emsa (P.sha256 (transaction_string P pk reciver amount uid)) sk.n)
    (hneU : P.emsa (P.sha256 (transaction_string P pk reciver amount uid2)) sk.n
      ≠ P.emsa (P.sha256 (transaction_string P pk reciver amount uid)) sk.n) :
    Transaction.verify P
        { Transaction.new P pk sk reciver amount uid with amount := amount2 } = false
    ∧ Transaction.verify P
        { Transaction.new P pk sk reciver amount uid with reciver := reciver2 } = false
    ∧ Transaction.verify P
        { Transaction.new P pk sk reciver amount uid with uid := uid2 } = false :=
  ⟨verify_false_of_emsa_ne P sk pk _ _ hvk hEM hneA,
   verify_false_of_emsa_ne P sk pk _ _ hvk hEM hneR,
   verify_false_of_emsa_ne P sk pk _ _ hvk hEM hneU⟩

/-- Primitive instantiation for the C3 witness: the digest is the length of
the formatted string, so the mutated canonical messages below get distinct
padded digests. -/
def P3 : Primitives where
  sha256 := fun s => fun _ => Fin.ofNat s.length
  emsa := fun h _ => (h 0).val
  dbgPub := fun k => toString k.n
  dbgF64 := fun a => toString a
  dbgSig := fun s => toString s

theorem C3_mutation_breaks_verify_witness :
    Transaction.verify P3
        { Transaction.new P3 (pubOf skW) skW ⟨5, 3⟩ 7 1 with amount := 10 } = false
    ∧ Transaction.verify P3
        { Transaction.new P3 (pubOf skW) skW ⟨5, 3⟩ 7 1 with reciver := ⟨555, 3⟩ } = false
    ∧ Transaction.verify P3
        { Transaction.new P3 (pubOf skW) skW ⟨5, 3⟩ 7 1 with uid := 22 } = false :=
  C3_mutation_breaks_verify P3 skW (pubOf skW) ⟨5, 3⟩ 7 1 10 ⟨555, 3⟩ 22
    ⟨skW_valid, rfl⟩ (by decide) (by decide) (by decide) (by decide)

/-- C10: `Transaction::new` performs no check that the supplied private key
matches the sender public key: for any private key whose derived public key
differs from `sender`, construction succeeds with exactly the given fields
and the signature computed under the supplied key, and (whenever that
cross-key signature fails RSAVP1 under the sender key, the overwhelming-
probability case the claim describes) `verify` returns `false`. -/
theorem C10_no_key_match_check (P : Primitives) (pk : RsaPublicKey)
    (sk : RsaPrivateKey) (reciver : RsaPublicKey) (amount : F64) (uid : Nat)
    (hnepk : pubOf sk ≠ pk)
    (hforge : sign_message P (transaction_string P pk reciver amount uid) sk
        ^ pk.e % pk.n
      ≠ P.emsa (P.sha256 (transaction_string P pk reciver amount uid)) pk.n) :
    (Transaction.new P pk sk reciver amount uid).sender = pk
    ∧ (Transaction.new P pk sk reciver amount uid).reciver = reciver
    ∧ (Transaction.new P pk sk reciver amount uid).amount = amount
    ∧ (Transaction.new P pk sk reciver amount uid).uid = uid
    ∧ (Transaction.new P pk sk reciver amount uid).signature
        = sign_message P (transaction_string P pk reciver amount uid) sk
    ∧ Transaction.verify P (Transaction.new P pk sk reciver amount uid) = false := by
  refine ⟨rfl, rfl, rfl, rfl, rfl, ?_⟩
  unfold Transaction.verify Transaction.new verify_message
  simp only
  have hb : (sign_message P (transaction_string P pk reciver amount uid) sk
      ^ pk.e % pk.n
      == P.emsa (P.sha256 (transaction_string P pk reciver amount uid)) pk.n)
      = false := beq_eq_false_iff_ne.mpr hforge
  rw [hb, Bool.and_false]

theorem C10_no_key_match_check_witness :
    (Transaction.new Pw ⟨55, 3⟩ skW ⟨5, 3⟩ 7 1).sender = ⟨55, 3⟩
    ∧ (Transaction.new Pw ⟨55, 3⟩ skW ⟨5, 3⟩ 7 1).reciver = ⟨5, 3⟩
    ∧ (Transaction.new Pw ⟨55, 3⟩ skW ⟨5, 3⟩ 7 1).amount = 7
    ∧ (Transaction.new Pw ⟨55, 3⟩ skW ⟨5, 3⟩ 7 1).uid = 1
    ∧ (Transaction.new Pw ⟨55, 3⟩ skW ⟨5, 3⟩ 7 1).signature
        = sign_message Pw (transaction_string Pw ⟨55, 3⟩ ⟨5, 3⟩ 7 1) skW
    ∧ Transaction.verify Pw (Transaction.new Pw ⟨55, 3⟩ skW ⟨5, 3⟩ 7 1) = false :=
  C10_no_key_match_check Pw ⟨55, 3⟩ skW ⟨5, 3⟩ 7 1 (by decide) (by decide)

/-- The `derive(Debug)` rendering of one `Transaction`, as Rust derives it
for the struct: field names in declaration order, each value rendered by its
own Debug implementation. -/
def dbgTransaction (P : Primitives) (t : Transaction) : String :=
  "Transaction \x7b sender: " ++ P.dbgPub t.sender ++ ", reciver: "
    ++ P.dbgPub t.reciver ++ ", amount: " ++ P.dbgF64 t.amount ++ ", uid: "
    ++ toString t.uid ++ ", signature: " ++ P.dbgSig t.signature ++ " \x7d"

/-- The Debug rendering of `Vec<Transaction>`: bracketed, comma-separated
elements. -/
def dbgTransactions (P : Primitives) (ts : List Transaction) : String :=
  "[" ++ String.intercalate ", " (ts.map (dbgTransaction P)) ++ "]"

/-- The canonical block serialization, the source's
`format!("{:?} {:?} {:?}", transactions, miner, nonce)`. -/
def block_string (P : Primitives) (transactions : List Transaction)
    (miner : RsaPublicKey) (nonce : Nat) : String :=
  dbgTransactions P transactions ++ " " ++ P.dbgPub miner ++ " " ++ toString nonce

/-- `Block::check_block`: hash the canonical block serialization and report
whether the first 4 bytes of the digest are all zero (the loop
`for i in 0..4` with early exit), together with the digest itself. -/
def check_block (P : Primitives) (transactions : List Transaction)
    (miner : RsaPublicKey) (nonce : Nat) : Bool × SHA256Hash :=
  let hash := P.sha256 (block_string P transactions miner nonce)
  let is_zeros := hash 0 == 0 && hash 1 == 0 && hash 2 == 0 && hash 3 == 0
  (is_zeros, hash)

/-- Number of values of the Rust type `u64`, the nonce space of
`for i in 0 as u64..`. -/
def u64Card : Nat := 2 ^ 64

/-- The nonce search loop of `Block::mine_block`, with explicit remaining
fuel: the Rust `for i in 0 as u64..` body tries the current nonce, returns
the hash on success, and otherwise moves to the next nonce; `none` models
the fatal outcome (overflow panic of the exhausted `u64` iterator and the
`panic!` after the loop) once the whole nonce space has been tried. -/
def mineFrom (P : Primitives) (transactions : List Transaction)
    (miner : RsaPublicKey) : Nat → Nat → Option SHA256Hash
  | 0, _ => none
  | fuel + 1, i =>
    if (check_block P transactions miner i).1 then
      some (check_block P transactions miner i).2
    else
      mineFrom P transactions miner fuel (i + 1)

/-- `Block::mine_block`: run the nonce search from 0 over the `u64` nonce
space. -/
def mine_block (P : Primitives) (transactions : List Transaction)
    (miner : RsaPublicKey) : Option SHA256Hash :=
  mineFrom P transactions miner u64Card 0

lemma check_block_fst_iff (P : Primitives) (ts : List Transaction)
    (m : RsaPublicKey) (n : Nat) :
    (check_block P ts m n).1 = true ↔
      ((check_block P ts m n).2 0 = 0 ∧ (check_block P ts m n).2 1 = 0
        ∧ (check_block P ts m n).2 2 = 0 ∧ (check_block P ts m n).2 3 = 0) := by
  unfold check_block
  simp [Bool.and_eq_true, and_assoc]

lemma mineFrom_some (P : Primitives) (ts : List Transaction) (m : RsaPublicKey) :
    ∀ fuel i h, mineFrom P ts m fuel i = some h →
      ∃ n, i ≤ n ∧ n < i + fuel ∧ (check_block P ts m n).1 = true ∧
        (∀ j, i ≤ j → j < n → (check_block P ts m j).1 = false) ∧
        h = (check_block P ts m n).2 := by
  intro fuel
  induction fuel with
  | zero => intro i h hsome; simp [mineFrom] at hsome
  | succ f ih =>
    intro i h hsome
    by_cases hc : (check_block P ts m i).1 = true
    · refine ⟨i, le_refl i, by omega, hc, fun j hij hj => absurd hij (by omega), ?_⟩
      simp [mineFrom, hc] at hsome
      exact hsome.symm
    · have hcf : (check_block P ts m i).1 = false := by
        exact Bool.not_eq_true _ ▸ eq_false_of_ne_true hc
      simp [mineFrom, hcf] at hsome
      obtain ⟨n, hin, hnf, hvalid, hmin, hh⟩ := ih (i + 1) h hsome
      refine ⟨n, by omega, by omega, hvalid, ?_, hh⟩
      intro j hij hjn
      rcases eq_or_ne j i with rfl | hji
      · exact hcf
      · exact hmin j (by omega) hjn

lemma mineFrom_none (P : Primitives) (ts : List Transaction) (m : RsaPublicKey) :
    ∀ fuel i, (∀ j, i ≤ j → j < i + fuel → (check_block P ts m j).1 = false) →
      mineFrom P ts m fuel i = none := by
  intro fuel
  induction fuel with
  | zero => intro i hall; simp [mineFrom]
  | succ f ih =>
    intro i hall
    have hcf : (check_block P ts m i).1 = false := hall i (le_refl i) (by omega)
    simp [mineFrom, hcf]
    exact ih (i + 1) (fun j h1 h2 => hall j (by omega) (by omega))

lemma mineFrom_found (P : Primitives) (ts : List Transaction) (m : RsaPublicKey)
    (fuel i : Nat) (hf : 0 < fuel) (hc : (check_block P ts m i).1 = true) :
    mineFrom P ts m fuel i = some (check_block P ts m i).2 := by
  obtain ⟨f, rfl⟩ := Nat.exists_eq_succ_of_ne_zero (Nat.pos_iff_ne_zero.mp hf)
  simp [mineFrom, hc]

/-- C5: `check_block` returns as its hash component exactly the 32-byte
SHA-256 digest of the canonical serialization of
`(transactions, miner, nonce)`, and its validity flag is `true` iff the
first 4 bytes of that digest are all zero.  It is a pure Lean function, so
it has no side effects. -/
theorem C5_check_block_digest_and_flag (P : Primitives)
    (ts : List Transaction) (m : RsaPublicKey) (nonce : Nat) :
    (check_block P ts m nonce).2 = P.sha256 (block_string P ts m nonce)
    ∧ ((check_block P ts m nonce).1 = true ↔
        (P.sha256 (block_string P ts m nonce) 0 = 0
          ∧ P.sha256 (block_string P ts m nonce) 1 = 0
          ∧ P.sha256 (block_string P ts m nonce) 2 = 0
          ∧ P.sha256 (block_string P ts m nonce) 3 = 0)) :=
  ⟨rfl, check_block_fst_iff P ts m nonce⟩

/-- C9: `check_block` is deterministic: two calls on equal inputs return
equal `(is_valid, hash)` pairs. -/
theorem C9_check_block_deterministic (P : Primitives)
    (ts1 : List Transaction) (m1 : RsaPublicKey) (n1 : Nat)
    (ts2 : List Transaction) (m2 : RsaPublicKey) (n2 : Nat)
    (hts : ts1 = ts2) (hm : m1 = m2) (hn : n1 = n2) :
    check_block P ts1 m1 n1 = check_block P ts2 m2 n2 := by
  subst hts; subst hm; subst hn; rfl

theorem C9_check_block_deterministic_witness :
    check_block Pw [] ⟨33, 3⟩ 0 = check_block Pw [] ⟨33, 3⟩ 0 :=
  C9_check_block_deterministic Pw [] ⟨33, 3⟩ 0 [] ⟨33, 3⟩ 0 rfl rfl rfl

/-- C4: whenever `mine_block` returns a hash, that hash is the hash
component of `check_block` at the least nonce whose check is valid, its
first 4 bytes are all zero, and `check_block` at that nonce reports
`is_valid = true`. -/
theorem C4_mine_block_least_valid_nonce (P : Primitives)
    (ts : List Transaction) (m : RsaPublicKey) (h : SHA256Hash)
    (hsome : mine_block P ts m = some h) :
    ∃ n, n < u64Card ∧ (check_block P ts m n).1 = true
      ∧ (∀ j, j < n → (check_block P ts m j).1 = false)
      ∧ h = (check_block P ts m n).2
      ∧ h 0 = 0 ∧ h 1 = 0 ∧ h 2 = 0 ∧ h 3 = 0 := by
  obtain ⟨n, _, hnf, hvalid, hmin, hh⟩ := mineFrom_some P ts m u64Card 0 h hsome
  have hz := (check_block_fst_iff P ts m n).1 hvalid
  refine ⟨n, by omega, hvalid, fun j hj => hmin j (Nat.zero_le j) hj, hh, ?_, ?_, ?_, ?_⟩
  · rw [hh]; exact hz.1
  · rw [hh]; exact hz.2.1
  · rw [hh]; exact hz.2.2.1
  · rw [hh]; exact hz.2.2.2

/-- The all-zero digest, value of every `Pw.sha256` call. -/
def zeroHash : SHA256Hash := fun _ => 0

theorem C4_mine_block_least_valid_nonce_witness :
    mine_block Pw [] ⟨33, 3⟩ = some zeroHash
    ∧ ∃ n, n < u64Card ∧ (check_block Pw [] ⟨33, 3⟩ n).1 = true
      ∧ (∀ j, j < n → (check_block Pw [] ⟨33, 3⟩ j).1 = false)
      ∧ zeroHash = (check_block Pw [] ⟨33, 3⟩ n).2
      ∧ zeroHash 0 = 0 ∧ zeroHash 1 = 0 ∧ zeroHash 2 = 0 ∧ zeroHash 3 = 0 := by
  have hs : mine_block Pw [] ⟨33, 3⟩ = some zeroHash :=
    mineFrom_found Pw [] ⟨33, 3⟩ u64Card 0 (by decide) rfl
  exact ⟨hs, C4_mine_block_least_valid_nonce Pw [] ⟨33, 3⟩ zeroHash hs⟩

/-- C8: if no nonce in the `u64` nonce space satisfies the difficulty
predicate, `mine_block` produces no hash at all (the model's `none`, the
code's fatal panic); and it never returns a hash that fails the predicate:
any returned hash has its first 4 bytes all zero. -/
theorem C8_mine_block_exhaustion_fatal (P : Primitives)
    (ts : List Transaction) (m : RsaPublicKey) :
    ((∀ n, n < u64Card → (check_block P ts m n).1 = false) →
        mine_block P ts m = none)
    ∧ (∀ h, mine_block P ts m = some h →
        h 0 = 0 ∧ h 1 = 0 ∧ h 2 = 0 ∧ h 3 = 0) := by
  constructor
  · intro hall
    exact mineFrom_none P ts m u64Card 0 (fun j _ hj => hall j (by omega))
  · intro h hsome
    obtain ⟨n, _, _, hvalid, _, hh⟩ := mineFrom_some P ts m u64Card 0 h hsome
    have hz := (check_block_fst_iff P ts m n).1 hvalid
    rw [hh]
    exact hz

/-- Primitive instantiation whose digest never has a zero leading byte, so
no nonce is ever valid. -/
def P8 : Primitives where
  sha256 := fun _ => fun _ => 1
  emsa := fun _ _ => 5
  dbgPub := fun _ => ""
  dbgF64 := fun _ => ""
  dbgSig := fun _ => ""

theorem C8_mine_block_exhaustion_fatal_witness :
    mine_block P8 [] ⟨33, 3⟩ = none :=
  (C8_mine_block_exhaustion_fatal P8 [] ⟨33, 3⟩).1 (fun n _ => rfl)

end Shitcoin
